import Mathlib

/-!
Verification development for the `traefik-k8s-operator` ingress relation
libraries: `lib/charms/traefik_k8s/v0/ingress.py` (per-app variant) and
`lib/charms/traefik_k8s/v1/ingress_per_unit.py` (per-unit variant).

Relation databags are modelled as association lists from string keys to
string values, Python dicts as association lists, and Python exceptions as
`Except` errors: an `Except.error` denotes a raised exception, in which case
the caller's copy of the shared store is untouched (the functions below only
produce a new store in their `.ok` result).

Behaviour of the external collaborators is modelled where the source relies
on it, each time with a comment naming the collaborator:
* `ops.model.RelationDataContent` (the Juju relation databag wrapper):
  application databags are writable only by the leader, values must be
  strings, and deleting a key is setting it to the empty string, which
  removes it.
* `pydantic` (v1): parsing coerces fields per their declared types and a
  field validator's return value replaces the field value.
* `yaml.safe_dump`/`yaml.safe_load` (pyyaml) and `jsonschema.validate`:
  modelled by a concrete codec for the plain-scalar block-mapping fragment
  these libraries are applied to here, and by a decidable schema check.
-/

/-- Association-list lookup; models Python `dict.get`/`dict.__getitem__`. -/
def aLookup {α : Type} : List (String × α) → String → Option α
  | [], _ => none
  | (k2, v) :: rest, k => if k2 = k then some v else aLookup rest k

/-- Models Python `d[k] = v`: overwrite the binding for `k` or append it. -/
def aSet {α : Type} : List (String × α) → String → α → List (String × α)
  | [], k, v => [(k, v)]
  | (k2, v2) :: rest, k, v =>
      if k2 = k then (k, v) :: rest else (k2, v2) :: aSet rest k v

/-- Models Python `del d[k]` (first binding removed; dicts never hold two). -/
def aRemove {α : Type} : List (String × α) → String → List (String × α)
  | [], _ => []
  | (k2, v2) :: rest, k => if k2 = k then rest else (k2, v2) :: aRemove rest k

/-- The keys of an association list, in order; models `dict.keys()`. -/
def keysOf {α : Type} (m : List (String × α)) : List String := m.map Prod.fst

/-- A relation databag: string keys to string values. -/
abbrev Databag := List (String × String)

instance {ε α : Type} [DecidableEq ε] [DecidableEq α] :
    DecidableEq (Except ε α) := fun a b =>
  match a, b with
  | .ok x, .ok y => decidable_of_iff (x = y) (by simp)
  | .error x, .error y => decidable_of_iff (x = y) (by simp)
  | .ok _, .error _ => isFalse (by intro h; cases h)
  | .error _, .ok _ => isFalse (by intro h; cases h)

/-- The digits of a decimal numeral, or `none` (models the digit scan of
Python `int(str)`). -/
def pyIntDigits (cs : List Char) : Option Nat :=
  if cs.isEmpty then none
  else if cs.all (·.isDigit) then
    some (cs.foldl (fun n c => 10 * n + (c.toNat - 48)) 0)
  else none

/-- Models Python `int(str)` (on the fragment without surrounding
whitespace or underscores): an optional sign followed by decimal digits;
anything else raises `ValueError`, modelled as `none`. -/
def pyInt (s : String) : Option Int :=
  match s.data with
  | '-' :: rest => (pyIntDigits rest).map (fun n => -(n : Int))
  | cs => (pyIntDigits cs).map (fun n => (n : Int))

namespace V0

/-! ## `charms.traefik_k8s.v0.ingress` (per-app variant) -/

/-- The `ProviderIngressData` pydantic model: a single `url` field. -/
structure ProviderIngressData where
  url : String
deriving DecidableEq

/-- A value handed to a databag assignment in the v0 library.  The library
assigns either strings or (by mistake, see `IngressPerAppProvider.publish_url`)
a bare pydantic model object, which the store rejects. -/
inductive DatabagValue where
  | vstr (s : String)
  | vmodel (d : ProviderIngressData)
deriving DecidableEq

/-- Errors raised by `ops.model.RelationDataContent` on a write. -/
inductive OpsError where
  | notLeader
  | notAString
deriving DecidableEq

/-- Models `ops.model.RelationDataContent.__setitem__` on the local
application databag: only the leader may write it, and values must be
strings; both checks happen before any mutation of the store. -/
def opsSetAppData (isLeader : Bool) (bag : Databag) (k : String)
    (v : DatabagValue) : Except OpsError Databag :=
  if !isLeader then .error .notLeader
  else match v with
    | .vstr s => .ok (aSet bag k s)
    | .vmodel _ => .error .notAString

/-- Models `del relation.data[app][k]` via `ops`: the leader check precedes
the deletion (ops deletes by writing `""`, which removes the key). -/
def opsDelAppData (isLeader : Bool) (bag : Databag) (k : String) :
    Except OpsError Databag :=
  if !isLeader then .error .notLeader else .ok (aRemove bag k)

namespace IngressPerAppProvider

/-- `IngressPerAppProvider.publish_url`: builds
`ProviderData(ingress=ProviderIngressData(url=url))` and assigns that model
object (not its JSON serialization) to `relation.data[self.app]["data"]`. -/
def publish_url (isLeader : Bool) (bag : Databag) (url : String) :
    Except OpsError Databag :=
  opsSetAppData isLeader bag "data" (.vmodel ⟨url⟩)

/-- `IngressPerAppProvider.wipe_ingress_data`:
`del relation.data[self.app]["data"]`. -/
def wipe_ingress_data (isLeader : Bool) (bag : Databag) :
    Except OpsError Databag :=
  opsDelAppData isLeader bag "data"

end IngressPerAppProvider

/-- A pydantic `ValidationError` (the only exception the v0 read paths
catch). -/
inductive V0Error where
  | validationError
deriving DecidableEq

/-- The JSON text `pydantic` produces for `ProviderIngressData(url=u).json()`:
`{"url": "<u>"}`.  (This is the wire form the v0 requirer expects in the
provider's app databag under the key `"data"`.) -/
def providerIngressJson (u : String) : String :=
  ⟨'\x7b' :: '"' :: 'u' :: 'r' :: 'l' :: '"' :: ':' :: ' ' :: '"' ::
    (u.data ++ ['"', '\x7d'])⟩

/-- Body scanner for `parseProviderIngressJson`: consume characters up to the
closing `"` + brace; reject embedded quotes and backslashes (the fragment
of JSON strings needing no escapes). -/
def parseJsonBody : List Char → Option (List Char)
  | ['"', '\x7d'] => some []
  | c :: rest =>
      if c = '"' ∨ c = '\\' then none
      else match parseJsonBody rest with
        | some cs => some (c :: cs)
        | none => none
  | _ => none

/-- Models the pydantic `Json[ProviderIngressData]` field validation used by
`ProviderData` when the requirer reads the provider databag: parse the string
as the JSON object `{"url": "<string>"}` (escape-free fragment). -/
def parseProviderIngressJson (s : String) : Option String :=
  match s.data with
  | '\x7b' :: '"' :: 'u' :: 'r' :: 'l' :: '"' :: ':' :: ' ' :: '"' :: rest =>
      (parseJsonBody rest).map (fun cs => ⟨cs⟩)
  | _ => none

namespace IngressPerAppRequirer

/-- `IngressPerAppRequirer.url`: `None` when unrelated, `None` when the
provider databag has no (or a falsy) `"data"` value, otherwise
`ProviderData(ingress=provider_app_data).ingress.url`, which parses the
stored string as `{"url": ...}` and raises `ValidationError` on failure.
`related` is `self.relation is not None`; `remoteBag` is
`relation.data[relation.app]`. -/
def url (related : Bool) (remoteBag : Databag) :
    Except V0Error (Option String) :=
  if !related then .ok none
  else match aLookup remoteBag "data" with
    | none => .ok none
    | some s =>
        if s = "" then .ok none
        else match parseProviderIngressJson s with
          | some u => .ok (some u)
          | none => .error .validationError

/-- `IngressPerAppRequirer.is_ready`: `bool(self.url)`, catching
`pydantic.ValidationError` as `False`.  (`bool` of `None` and of the empty
string are both `False`.) -/
def is_ready (related : Bool) (remoteBag : Databag) : Bool :=
  match url related remoteBag with
  | .error _ => false
  | .ok none => false
  | .ok (some u) => u ≠ ""

/-- Notifications emitted by the v0 requirer. -/
inductive Event where
  | ready
  | revoked
deriving DecidableEq

/-- The diff/emit part of `IngressPerAppRequirer._handle_relation` (the
leading `_publish_auto_data` call only writes this unit's own requirer
databag and touches neither `remoteBag` nor the stored URL): if ready,
`_emit_ingress_ready_event` recomputes `self.url` and, only when it differs
from `self._stored.current_url` (`st`), stores it and emits `ready`. -/
def handleRelation (st : Option String) (related : Bool) (remoteBag : Databag) :
    Option String × List Event :=
  if is_ready related remoteBag then
    match url related remoteBag with
    | .ok newUrl => if st ≠ newUrl then (newUrl, [.ready]) else (st, [])
    | .error _ => (st, [])
  else (st, [])

/-- `IngressPerAppRequirer._handle_relation_broken`: unconditionally emits
`revoked`; the stored URL is not touched. -/
def handleRelationBroken (st : Option String) : Option String × List Event :=
  (st, [.revoked])

end IngressPerAppRequirer

/-- Does the string contain a space?  (`' ' in v` in the pydantic field
validator `name_cannot_contain_spaces`.) -/
def hasSpace (s : String) : Bool := s.data.contains ' '

/-- The record produced by parsing a v0 `RequirerData` pydantic model.  The
field validator `name_cannot_contain_spaces` ends without a `return`, and a
pydantic (v1) validator's return value replaces the field value, so the
validated fields come back as `None`; hence `Option String` for them. -/
structure RequirerData where
  model : Option String
  name : Option String
  host : Option String
  port : Int
deriving DecidableEq

/-- A Python object handed to `RequirerData.parse_obj`.  The v0 provider in
fact always passes a string — the raw databag value, which is the JSON text
the requirer published with `data.json()` — never a dict. -/
inductive PyObj where
  | pstr (s : String)
  | pdict (model name host port : String)
deriving DecidableEq

/-- The per-field validation pydantic (v1) would perform on a dict of the
four fields (as strings): the validator raises `ValueError` (surfacing as a
`ValidationError`) when `model`, `name` or `host` contains a space, and
otherwise returns nothing, which pydantic takes as the new (``None``) field
value; `port` is coerced to `int` per its declared type (`pyInt` models
Python `int(str)`). -/
def RequirerData.parseFields (model name host port : String) :
    Except V0Error RequirerData :=
  if hasSpace model then .error .validationError
  else if hasSpace name then .error .validationError
  else if hasSpace host then .error .validationError
  else match pyInt port with
    | some p => .ok ⟨none, none, none, p⟩
    | none => .error .validationError

/-- Models pydantic v1 `RequirerData.parse_obj`: a non-dict argument is
rejected up front (`RequirerData expected dict not str`), before any field
validation; a dict is validated per field. -/
def RequirerData.parse_obj : PyObj → Except V0Error RequirerData
  | .pstr _ => .error .validationError
  | .pdict model name host port =>
      RequirerData.parseFields model name host port

/-- `IngressPerAppProvider._get_requirer_data` / `get_data`: returns the
empty dict `{}` (modelled `none`) when the remote app or its name is missing
or when no (or falsy) `"data"` was sent; otherwise
`RequirerData.parse_obj(remote_data)` where `remote_data` is the raw string
stored in the databag — a string, since databag values are strings. -/
def IngressPerAppProvider.get_data (appPresent : Bool) (appName : String)
    (remoteBag : Databag) : Except V0Error (Option RequirerData) :=
  if !appPresent || appName = "" then .ok none
  else
    match aLookup remoteBag "data" with
    | none => .ok none
    | some s =>
        if s = "" then .ok none
        else (RequirerData.parse_obj (.pstr s)).map some

end V0

/-! ## A mini YAML codec

`yaml.safe_dump` / `yaml.safe_load` are applied by the v1 library to one
shape only: a block mapping from unit names to `{url: <string>}` mappings
with plain scalars.  The codec below implements exactly that fragment
(pyyaml's defaults: two-space indentation, keys sorted, a trailing newline
per line; `{}` for an empty mapping; a bare plain scalar document for a bare
string).  Inputs outside the fragment make `safeLoad` return `none`, which
models `yaml.YAMLError`. -/

/-- A YAML value of the fragment used on this interface. -/
inductive Yaml where
  | null
  | str (s : String)
  | map (entries : List (String × Yaml))

/-- Split a character list on newlines (`splitNl [] = [[]]`, one more piece
than separators, like Python `str.split("\n")`). -/
def splitNl : List Char → List (List Char)
  | [] => [[]]
  | c :: rest =>
      if c = '\n' then [] :: splitNl rest
      else
        match splitNl rest with
        | l :: ls => (c :: l) :: ls
        | [] => [[c]]

/-- Terminate every line with a newline and concatenate. -/
def joinNlChars (lines : List (List Char)) : List Char :=
  lines.foldr (fun l acc => l ++ '\n' :: acc) []

/-- Drop trailing blank lines (the artifact of the final newline). -/
def trimTrailingBlank (ls : List (List Char)) : List (List Char) :=
  (ls.reverse.dropWhile (fun l => l.isEmpty)).reverse

/-- Is the line indented by (at least) two spaces? -/
def indentp (cs : List Char) : Bool :=
  match cs with
  | c1 :: c2 :: _ => c1 = ' ' && c2 = ' '
  | _ => false

/-- Split a line `k: v` into `(k, some v)` or a block-entry line `k:` into
`(k, none)`; lines without a colon, or with a colon followed by anything but
a space or end of line, are outside the fragment. -/
def splitEntryLine (cs : List Char) : Option (String × Option String) :=
  match cs.dropWhile (· != ':') with
  | [':'] => some (⟨cs.takeWhile (· != ':')⟩, none)
  | ':' :: ' ' :: restv => some (⟨cs.takeWhile (· != ':')⟩, some ⟨restv⟩)
  | _ => none

/-- Parse one two-space-indented inner line `  k: v`. -/
def parseInnerLine (cs : List Char) : Option (String × Yaml) :=
  match cs with
  | ' ' :: ' ' :: rest =>
      match splitEntryLine rest with
      | some (k, some v) => some (k, .str v)
      | _ => none
  | _ => none

/-- Right-to-left single pass over the lines of a block mapping: the second
component collects the indented inner lines pending attachment to the next
block-entry line `k:` above them (a block entry with no inner lines is a
`null` value in YAML; a scalar entry may not be followed by indented
lines). -/
def parseTopR : List (List Char) →
    Option (List (String × Yaml) × List (String × Yaml))
  | [] => some ([], [])
  | l :: rest =>
      match parseTopR rest with
      | none => none
      | some (es, pending) =>
          if indentp l then
            match parseInnerLine l with
            | some e => some (es, e :: pending)
            | none => none
          else
            match splitEntryLine l with
            | some (k, none) =>
                some ((k, if pending.isEmpty then Yaml.null
                          else Yaml.map pending) :: es, [])
            | some (k, some v) =>
                if pending.isEmpty then some ((k, Yaml.str v) :: es, [])
                else none
            | none => none

/-- Parse a top-level block mapping: scalar entries `k: v` and block entries
`k:` followed by two-space-indented inner lines; indented lines with no
block entry above them are malformed. -/
def parseTop (lines : List (List Char)) : Option (List (String × Yaml)) :=
  match parseTopR lines with
  | some (es, []) => some es
  | _ => none

/-- `yaml.safe_load` on the fragment: empty document is `None`, `{}` is the
empty mapping, otherwise a block mapping, otherwise a single plain scalar. -/
def safeLoad (s : String) : Option Yaml :=
  let lines := trimTrailingBlank (splitNl s.data)
  match lines with
  | [] => some .null
  | _ =>
      if lines = [['\x7b', '\x7d']] then some (.map [])
      else
        match parseTop lines with
        | some es => some (.map es)
        | none =>
            match lines with
            | [l] => if l.contains ':' || indentp l then none else some (.str ⟨l⟩)
            | _ => none

/-- Insert a pair into a key-sorted list (models pyyaml `sort_keys=True`). -/
def insSorted {α : Type} (p : String × α) :
    List (String × α) → List (String × α)
  | [] => [p]
  | q :: rest => if p.1 ≤ q.1 then p :: q :: rest else q :: insSorted p rest

/-- Key-based insertion sort (pyyaml emits mapping keys sorted). -/
def sortPairs {α : Type} : List (String × α) → List (String × α)
  | [] => []
  | p :: rest => insSorted p (sortPairs rest)

/-- Emit an inner scalar value (values nested deeper than the two-level
fragment do not occur on this interface). -/
def dumpInnerVal : Yaml → List Char
  | .str s => s.data
  | .null => ['n', 'u', 'l', 'l']
  | .map _ => ['\x7b', '\x7d']

/-- The lines `yaml.safe_dump` emits for one top-level entry. -/
def yamlEntryLines : String × Yaml → List (List Char)
  | (k, .str s) => [k.data ++ ':' :: ' ' :: s.data]
  | (k, .null) => [k.data ++ ':' :: ' ' :: ['n', 'u', 'l', 'l']]
  | (k, .map []) => [k.data ++ ':' :: ' ' :: ['\x7b', '\x7d']]
  | (k, .map inner) =>
      (k.data ++ [':']) ::
        (sortPairs inner).map
          (fun q => ' ' :: ' ' :: q.1.data ++ ':' :: ' ' :: dumpInnerVal q.2)

/-- `yaml.safe_dump` on the fragment (sorted keys, block style, trailing
newline). -/
def yamlDump : Yaml → String
  | .null => "null\n...\n"
  | .str s => ⟨s.data ++ '\n' :: '.' :: '.' :: '.' :: ['\n']⟩
  | .map [] => "\x7b\x7d\n"
  | .map entries =>
      ⟨joinNlChars (((sortPairs entries).map yamlEntryLines).flatten)⟩

/-- Is a member value of the published mapping valid under
`INGRESS_PROVIDES_APP_SCHEMA`: an object with a required string property
`url` (extra properties are unconstrained)? -/
def validIngressValue : Yaml → Bool
  | .map inner =>
      match aLookup inner "url" with
      | some (.str _) => true
      | _ => false
  | _ => false

/-- Models `_validate_data({"ingress": data}, INGRESS_PROVIDES_APP_SCHEMA)`
as a predicate on `data`: `data` must be an object and, via
`patternProperties ""`, every member value must satisfy
`validIngressValue`.  (The optional legacy `_supported_versions` key lives in
a separate databag key, never inside `data`.) -/
def validateProvidesApp : Yaml → Bool
  | .map entries => entries.all (fun q => validIngressValue q.2)
  | _ => false

/-- `unit_data["url"]` after successful validation (the defaults are
unreachable then). -/
def urlOf : Yaml → String
  | .map inner =>
      match aLookup inner "url" with
      | some (.str s) => s
      | _ => ""
  | _ => ""

/-- `{unit_name: unit_data["url"] for unit_name, unit_data in data.items()}`. -/
def extractUrls : Yaml → List (String × String)
  | .map entries => entries.map (fun q => (q.1, urlOf q.2))
  | _ => []

namespace V1

/-! ## `charms.traefik_k8s.v1.ingress_per_unit` -/

/-- Exceptions of the v1 library and of the Python runtime operations it
uses (`assert`, attribute access on `None`, `dict[k]`, `int(str)`). -/
inductive IpuError where
  | assertionError
  | dataValidationError
  | yamlError
  | attributeError
  | keyError
  | valueError
  | dataMismatch (unit : String)
deriving DecidableEq

/-- The remote application object of a relation (`relation.app`), which may
itself be absent. -/
structure RemoteApp where
  name : String
deriving DecidableEq

/-- A requirer-side view of the relation: the remote application (if any)
and the remote (provider) application databag. -/
structure IpuRelation where
  app : Option RemoteApp
  appData : Databag
deriving DecidableEq

/-- `_IngressPerUnitBase.is_ready(relation)` for a present relation:
`False` when `relation.app is None` or when its name is empty (the
relation-broken edge case), `True` otherwise. -/
def baseIsReady (app : Option RemoteApp) : Bool :=
  match app with
  | none => false
  | some a => a.name ≠ ""

/-- The provider-side view: the remote application and, per remote unit
name, that unit's databag. -/
structure IpuProviderRelation where
  app : Option RemoteApp
  unitsData : List (String × Databag)
deriving DecidableEq

/-- The `RequirerData` TypedDict of the v1 library, after the convenience
cast of `port` to `int`. -/
structure RequirerData where
  model : String
  name : String
  host : String
  port : Int
deriving DecidableEq

namespace IngressPerUnitProvider

/-- `IngressPerUnitProvider._get_requirer_unit_data`: read the four keys out
of the unit databag (`KeyError` when one is missing), validate against
`INGRESS_REQUIRES_UNIT_SCHEMA` (databag values are strings, so a complete
record always passes), then cast `port` with `int(...)`, which raises
`ValueError` on a non-numeric string (`pyInt` models `int(str)`). -/
def getRequirerUnitData (bag : Databag) : Except IpuError RequirerData :=
  match aLookup bag "port", aLookup bag "host",
        aLookup bag "model", aLookup bag "name" with
  | some port, some host, some model, some name =>
      match pyInt port with
      | some p => .ok ⟨model, name, host, p⟩
      | none => .error .valueError
  | _, _, _, _ => .error .keyError

/-- The loop of `_requirer_units_data`: units raising `KeyError` (no data
yet) or `DataValidationError` (invalid data) are skipped with a log line;
any other exception (the `int` cast) propagates. -/
def requirerUnitsDataGo :
    List (String × Databag) → Except IpuError (List (String × RequirerData))
  | [] => .ok []
  | (u, bag) :: rest =>
      match getRequirerUnitData bag with
      | .ok r =>
          match requirerUnitsDataGo rest with
          | .ok l => .ok ((u, r) :: l)
          | .error e => .error e
      | .error .keyError => requirerUnitsDataGo rest
      | .error .dataValidationError => requirerUnitsDataGo rest
      | .error e => .error e

/-- `IngressPerUnitProvider._requirer_units_data`: empty when the remote
application is unknown (relation-broken edge case), otherwise the validated
records of the remote units. -/
def requirer_units_data (rel : IpuProviderRelation) :
    Except IpuError (List (String × RequirerData)) :=
  match rel.app with
  | none => .ok []
  | some a => if a.name = "" then .ok [] else requirerUnitsDataGo rel.unitsData

/-- `IngressPerUnitProvider.is_ready(relation)`: `False` if the base check
fails; `False` if fetching the units' data raises (`except Exception`);
otherwise `any(requirer_units_data.values())` (records are non-empty dicts,
hence truthy). -/
def is_ready (rel : IpuProviderRelation) : Bool :=
  if baseIsReady rel.app = false then false
  else
    match requirer_units_data rel with
    | .error _ => false
    | .ok l => !l.isEmpty

/-- Python falsiness of `expected_model` (`None` or the empty string). -/
def pyFalsy : Option String → Bool
  | none => true
  | some s => s = ""

/-- The scanning loop of `IngressPerUnitProvider.validate`: remember the
first truthy `model` value and raise `RelationDataMismatchError` at the
first later unit whose `model` differs; on success return `False` (as the
source does). -/
def validateGo :
    Option String → List (String × RequirerData) → Except IpuError Bool
  | _, [] => .ok false
  | acc, (u, r) :: rest =>
      if pyFalsy acc then validateGo (some r.model) rest
      else if acc = some r.model then validateGo acc rest
      else .error (.dataMismatch u)

/-- `IngressPerUnitProvider.validate`: scan all remote unit records
(`_requirer_units_data` exceptions propagate). -/
def validate (rel : IpuProviderRelation) : Except IpuError Bool :=
  match requirer_units_data rel with
  | .error e => .error e
  | .ok l => validateGo none l

/-- Result of a `publish_url` call that did not raise: the (possibly
unchanged) provider app databag, and whether the corrupted-databag error was
logged (in which case the store is returned unchanged). -/
structure PublishReturn where
  bag : Databag
  loggedCorruption : Bool
deriving DecidableEq

/-- `IngressPerUnitProvider.publish_url`: assert leadership; load the
pre-existing `"ingress"` value (falsy → `{}`, unparsable → `yaml` raises);
validate it and on failure log and return without writing; insert
`unit_name -> {"url": url}`; re-validate (a failure here would raise); dump
and write back. -/
def publish_url (isLeader : Bool) (bag : Databag) (unitName url : String) :
    Except IpuError PublishReturn :=
  if !isLeader then .error .assertionError
  else
    let loaded : Except IpuError Yaml :=
      match aLookup bag "ingress" with
      | none => .ok (.map [])
      | some raw =>
          if raw = "" then .ok (.map [])
          else
            match safeLoad raw with
            | some d => .ok d
            | none => .error .yamlError
    match loaded with
    | .error e => .error e
    | .ok data =>
        if !validateProvidesApp data then .ok ⟨bag, true⟩
        else
          let newEntries :=
            match data with
            | .map es => aSet es unitName (.map [("url", .str url)])
            | _ => []
          if !validateProvidesApp (.map newEntries) then
            .error .dataValidationError
          else .ok ⟨aSet bag "ingress" (yamlDump (.map newEntries)), false⟩

/-- `IngressPerUnitProvider.wipe_ingress_data`: assert leadership, then
`del relation.data[self.app]["ingress"]` (via `ops`, deletion is writing
`""`, which removes the key). -/
def wipe_ingress_data (isLeader : Bool) (bag : Databag) :
    Except IpuError Databag :=
  if !isLeader then .error .assertionError else .ok (aRemove bag "ingress")

end IngressPerUnitProvider

namespace IngressPerUnitRequirer

/-- The decoding `IngressPerUnitRequirer.urls` applies to a present, truthy
`"ingress"` value: `yaml.safe_load`, validation against
`INGRESS_PROVIDES_APP_SCHEMA`, then extraction of the per-unit urls. -/
def decodeUrlString (raw : String) :
    Except IpuError (List (String × String)) :=
  match safeLoad raw with
  | none => .error .yamlError
  | some data =>
      if validateProvidesApp data then .ok (extractUrls data)
      else .error .dataValidationError

/-- `IngressPerUnitRequirer.urls`: `{}` without a relation; then the source
reads `relation.app.name`, which raises `AttributeError` when
`relation.app` is `None`; `{}` when the remote app name is empty or the
provider has not sent (truthy) data yet; otherwise decode. -/
def urls (rel : Option IpuRelation) :
    Except IpuError (List (String × String)) :=
  match rel with
  | none => .ok []
  | some r =>
      match r.app with
      | none => .error .attributeError
      | some app =>
          if app.name = "" then .ok []
          else
            match aLookup r.appData "ingress" with
            | none => .ok []
            | some raw => if raw = "" then .ok [] else decodeUrlString raw

/-- `IngressPerUnitRequirer.url`: `None` when `urls` is falsy, else
`urls.get(self.charm.unit.name)`. -/
def url (rel : Option IpuRelation) (thisUnit : String) :
    Except IpuError (Option String) :=
  match urls rel with
  | .error e => .error e
  | .ok [] => .ok none
  | .ok us => .ok (aLookup us thisUnit)

/-- `IngressPerUnitRequirer.is_ready`: `False` without a relation; `False`
when the base readiness check fails (so the unknown-remote-app edge case
never reaches `url`); otherwise `bool(self.url)` — any exception from `url`
propagates to the caller. -/
def is_ready (rel : Option IpuRelation) (thisUnit : String) :
    Except IpuError Bool :=
  match rel with
  | none => .ok false
  | some r =>
      if baseIsReady r.app = false then .ok false
      else
        match url rel thisUnit with
        | .error e => .error e
        | .ok none => .ok false
        | .ok (some u) => .ok (u ≠ "")

/-- `removed = previous_urls.keys() - current_urls.keys()` (membership in
the set comprehension; the filter fixes one iteration order, Python sets do
not guarantee one). -/
def diffRemoved (previous current : List (String × String)) : List String :=
  (keysOf previous).filter (fun a => (aLookup current a).isNone)

/-- `changed = {a for a in current_urls if current_urls[a] !=
previous_urls.get(a)}`. -/
def diffChanged (previous current : List (String × String)) : List String :=
  (keysOf current).filter
    (fun a => decide (aLookup current a ≠ aLookup previous a))

/-- Notifications of the v1 requirer. -/
inductive Event where
  | ready (unit url : String)
  | revoked
  | readyForUnit (url : String)
  | revokedForUnit
deriving DecidableEq

/-- The `listen_to` observation-scope selector. -/
inductive ListenTo where
  | onlyThisUnit
  | allUnits
  | both
deriving DecidableEq

/-- `self.listen_to in {'only-this-unit', 'both'}`. -/
def scopeThis : ListenTo → Bool
  | .onlyThisUnit => true
  | .both => true
  | .allUnits => false

/-- `self.listen_to in {'all-units', 'both'}`. -/
def scopeAll : ListenTo → Bool
  | .allUnits => true
  | .both => true
  | .onlyThisUnit => false

/-- The diff/emit/store part of `IngressPerUnitRequirer._handle_relation`
(the trailing `_publish_auto_data` only writes this unit's own requirer
databag): compute `previous` from the stored snapshot (`or {}`), read
`self.urls` (an exception propagates, leaving the stored state untouched and
emitting nothing), diff, emit per scope, then store the current snapshot.
`current_urls[name]` is total on members of `changed` (they are keys of
`current`); the `getD ""` default is unreachable. -/
def handleRelation (st : Option (List (String × String)))
    (rel : Option IpuRelation) (listenTo : ListenTo) (thisUnit : String) :
    Except IpuError (Option (List (String × String)) × List Event) :=
  let previous := st.getD []
  match urls rel with
  | .error e => .error e
  | .ok current =>
      let removed := diffRemoved previous current
      let changed := diffChanged previous current
      let evThis :=
        if scopeThis listenTo then
          (if changed.contains thisUnit then
            [Event.readyForUnit ((aLookup current thisUnit).getD "")]
          else []) ++
          (if removed.contains thisUnit then [Event.revokedForUnit] else [])
        else []
      let evAll :=
        if scopeAll listenTo then
          changed.map (fun u => Event.ready u ((aLookup current u).getD "")) ++
          removed.map (fun _ => Event.revoked)
        else []
      .ok (some current, evThis ++ evAll)

end IngressPerUnitRequirer

/-- The serialization `publish_url` writes for a per-unit URL mapping `m`:
`yaml.safe_dump({unit: {"url": url} for unit, url in m})`. -/
def ingressYaml (m : List (String × String)) : Yaml :=
  .map (m.map (fun kv => (kv.1, Yaml.map [("url", Yaml.str kv.2)])))

/-- The encoder side of the provider→requirer per-unit wire format. -/
def encodeIngress (m : List (String × String)) : String :=
  yamlDump (ingressYaml m)

end V1

/-- A key that pyyaml emits as an unquoted plain scalar in the modelled
fragment: no colon, no newline, not starting with a space. -/
def PlainKey (k : String) : Prop :=
  ':' ∉ k.data ∧ '\n' ∉ k.data ∧ k.data.head? ≠ some ' '

instance (k : String) : Decidable (PlainKey k) := by
  unfold PlainKey
  infer_instance

/-- An entry of the two-level fragment the provider writes: a plain key and
a `{url: <one-line string>}` value. -/
def FragEntry (e : String × Yaml) : Prop :=
  PlainKey e.1 ∧
    ∃ u : String, e.2 = Yaml.map [("url", Yaml.str u)] ∧ '\n' ∉ u.data

/-- Decode a stored `"ingress"` string the way `IngressPerUnitRequirer.urls`
does and look up one unit: `none` when decoding raises, otherwise the
(optional) url of that unit. -/
def decodedLookup (raw k : String) : Option (Option String) :=
  match V1.IngressPerUnitRequirer.decodeUrlString raw with
  | .error _ => none
  | .ok l => some (aLookup l k)

/-! ## Helper lemmas -/

@[simp] theorem keysOf_nil {α : Type} : keysOf ([] : List (String × α)) = [] :=
  rfl

@[simp] theorem keysOf_cons {α : Type} (p : String × α)
    (rest : List (String × α)) : keysOf (p :: rest) = p.1 :: keysOf rest :=
  rfl

@[simp] theorem aLookup_nil {α : Type} (k : String) :
    aLookup ([] : List (String × α)) k = none := rfl

@[simp] theorem aLookup_cons {α : Type} (k2 k : String) (v : α)
    (rest : List (String × α)) :
    aLookup ((k2, v) :: rest) k = if k2 = k then some v else aLookup rest k :=
  rfl

theorem aLookup_eq_none_iff {α : Type} (m : List (String × α)) (k : String) :
    aLookup m k = none ↔ k ∉ keysOf m := by
  induction m with
  | nil => simp
  | cons p rest ih =>
      obtain ⟨k2, v⟩ := p
      by_cases hk : k2 = k
      · subst hk
        simp
      · simp only [aLookup_cons, keysOf_cons, List.mem_cons, if_neg hk, ih]
        constructor
        · intro hnot hor
          rcases hor with h | h
          · exact hk h.symm
          · exact hnot h
        · intro hnot h
          exact hnot (Or.inr h)

theorem aLookup_isSome_of_mem_keys {α : Type} {m : List (String × α)}
    {k : String} (h : k ∈ keysOf m) : (aLookup m k).isSome := by
  cases hl : aLookup m k with
  | none => exact absurd h ((aLookup_eq_none_iff m k).mp hl)
  | some v => rfl

theorem mem_of_aLookup_eq_some {α : Type} {m : List (String × α)}
    {k : String} {v : α} (h : aLookup m k = some v) : (k, v) ∈ m := by
  induction m with
  | nil => simp at h
  | cons p rest ih =>
      obtain ⟨k2, v2⟩ := p
      by_cases hk : k2 = k
      · subst hk
        simp at h
        subst h
        exact List.mem_cons_self _ _
      · simp only [aLookup_cons, if_neg hk] at h
        exact List.mem_cons_of_mem _ (ih h)

theorem aLookup_eq_some_of_mem {α : Type} {m : List (String × α)}
    {k : String} {v : α} (hmem : (k, v) ∈ m) (hnd : (keysOf m).Nodup) :
    aLookup m k = some v := by
  induction m with
  | nil => simp at hmem
  | cons p rest ih =>
      obtain ⟨k2, v2⟩ := p
      simp only [keysOf_cons, List.nodup_cons] at hnd
      rcases List.mem_cons.mp hmem with h | h
      · cases h
        simp
      · have hk : k2 ≠ k := by
          intro hkk
          subst hkk
          exact hnd.1 (List.mem_map.mpr ⟨(k2, v), h, rfl⟩)
        simp only [aLookup_cons, if_neg hk]
        exact ih h hnd.2

theorem keysOf_perm {α : Type} {m1 m2 : List (String × α)}
    (hp : m1.Perm m2) : (keysOf m1).Perm (keysOf m2) :=
  hp.map Prod.fst

theorem aLookup_perm {α : Type} {m1 m2 : List (String × α)}
    (hp : m1.Perm m2) (hnd : (keysOf m1).Nodup) (k : String) :
    aLookup m1 k = aLookup m2 k := by
  have hnd2 : (keysOf m2).Nodup := ((keysOf_perm hp).nodup_iff).mp hnd
  cases h1 : aLookup m1 k with
  | none =>
      have hn : k ∉ keysOf m1 := (aLookup_eq_none_iff _ _).mp h1
      have hn2 : k ∉ keysOf m2 := fun hk =>
        hn (((keysOf_perm hp).mem_iff).mpr hk)
      exact ((aLookup_eq_none_iff _ _).mpr hn2).symm
  | some v =>
      have hmem : (k, v) ∈ m2 := hp.mem_iff.mp (mem_of_aLookup_eq_some h1)
      exact (aLookup_eq_some_of_mem hmem hnd2).symm

theorem insSorted_perm {α : Type} (p : String × α) (l : List (String × α)) :
    (insSorted p l).Perm (p :: l) := by
  induction l with
  | nil => exact List.Perm.refl _
  | cons q rest ih =>
      simp only [insSorted]
      split
      · exact List.Perm.refl _
      · exact (ih.cons q).trans (List.Perm.swap p q rest)

theorem sortPairs_perm {α : Type} (l : List (String × α)) :
    (sortPairs l).Perm l := by
  induction l with
  | nil => exact List.Perm.refl _
  | cons p rest ih => exact (insSorted_perm p (sortPairs rest)).trans (ih.cons p)

/-! ## Claims -/

/-- C1: for every relation, a non-leader calling `publish_url` or
`wipe_ingress_data` (per-app v0 and per-unit v1 alike) fails before any
mutation of the shared relation store: each call returns an exception and no
new store contents (stores are only produced in `.ok` results, so the
relation data is unchanged after the failed call).  In v1 the guard is the
library's own leadership assertion; in v0 it is the store wrapper's
leader-only write check, which precedes any write. -/
theorem c1_nonleader_mutations_fail :
    (∀ (bag : Databag) (u : String),
        V0.IngressPerAppProvider.publish_url false bag u =
          .error V0.OpsError.notLeader) ∧
    (∀ bag : Databag,
        V0.IngressPerAppProvider.wipe_ingress_data false bag =
          .error V0.OpsError.notLeader) ∧
    (∀ (bag : Databag) (unitName urlv : String),
        V1.IngressPerUnitProvider.publish_url false bag unitName urlv =
          .error V1.IpuError.assertionError) ∧
    (∀ bag : Databag,
        V1.IngressPerUnitProvider.wipe_ingress_data false bag =
          .error V1.IpuError.assertionError) :=
  ⟨fun _ _ => rfl, fun _ => rfl, fun _ _ _ => rfl, fun _ => rfl⟩

/-- C3 (code bug): the v0 `publish_url` never stores the JSON object
`{"url": "<string>"}` — it assigns the bare `ProviderData` pydantic model
object instead of a serialized string, so the store write fails (relation
data values must be strings) for every databag state and every url, and
nothing is ever published. -/
theorem c3_publish_url_never_stores_json :
    ∀ (bag : Databag) (u : String),
      V0.IngressPerAppProvider.publish_url true bag u =
        .error V0.OpsError.notAString :=
  fun _ _ => rfl

/-- What pydantic would do with a dict of the four fields: on success the
validated fields `model`, `name` and `host` are all `None` (the field
validator returns no value, which pydantic substitutes for the field), and
only `port` retains the published value (coerced to `int`).  The v0
provider never reaches this path: see `c10_get_data_never_returns_record`. -/
theorem parseFields_nulls_validated_fields :
    ∀ (model name host port : String) (r : V0.RequirerData),
      V0.RequirerData.parseFields model name host port = .ok r →
      r.model = none ∧ r.name = none ∧ r.host = none ∧
        pyInt port = some r.port := by
  intro m n h p r hr
  unfold V0.RequirerData.parseFields at hr
  split at hr
  · exact absurd hr (by simp)
  · split at hr
    · exact absurd hr (by simp)
    · split at hr
      · exact absurd hr (by simp)
      · split at hr
        · cases hr
          exact ⟨rfl, rfl, rfl, by assumption⟩
        · exact absurd hr (by simp)

/-- C10 (code bug): `get_data` can never return a parsed `RequirerData` at
all — it hands `RequirerData.parse_obj` the raw JSON string stored in the
databag, which pydantic v1 rejects before any field validation — so on
every input it either returns the empty-dict sentinel or raises
`ValidationError`; the claim's "databag that `get_data` successfully
parses" premise is unsatisfiable in the program. -/
theorem c10_get_data_never_returns_record :
    ∀ (appPresent : Bool) (appName : String) (bag : Databag),
      V0.IngressPerAppProvider.get_data appPresent appName bag = .ok none ∨
      V0.IngressPerAppProvider.get_data appPresent appName bag =
        .error V0.V0Error.validationError := by
  intro ap an bag
  unfold V0.IngressPerAppProvider.get_data
  by_cases h1 : (!ap || an = "") = true
  · left
    simp [h1]
  · cases h2 : aLookup bag "data" with
    | none =>
        left
        simp [h1, h2]
    | some s =>
        by_cases h3 : s = ""
        · left
          simp [h1, h2, h3]
        · right
          simp [h1, h2, h3, V0.RequirerData.parse_obj, Except.map]

/-- C2 (counterexample): the per-unit requirer does not emit `revoked`
unconditionally on relation-broken.  Handling a broken relation (the remote
app name is empty during relation-broken hooks, so `urls` resolves to `{}`)
with no previously stored URLs — i.e. the requirer never reached the ready
state — emits no notification at all. -/
theorem c2_counterexample :
    V1.IngressPerUnitRequirer.handleRelation none
        (some ⟨some ⟨""⟩, [("ingress", "a:\n  url: u\n")]⟩)
        V1.IngressPerUnitRequirer.ListenTo.both "app/0" =
      .ok (some [], []) := by
  rfl

/-- C2 (amended): on relation-broken the per-app (v0) requirer does emit
`revoked` unconditionally; the per-unit (v1) requirer runs its diff handler
instead, so on a broken snapshot (one where `urls` resolves to `{}`) it
emits exactly the following, and no ready-family notification: under the
this-unit scope, one `revoked_for_unit` iff this unit's URL was in the
stored last-known snapshot; under the all-units scope, one `revoked` per
stored unit; under `both`, both sets (this unit may be notified twice).  In
particular, when it never reached ready (nothing stored) it emits nothing. -/
theorem c2_amended :
    (∀ st : Option String,
        V0.IngressPerAppRequirer.handleRelationBroken st =
          (st, [V0.IngressPerAppRequirer.Event.revoked])) ∧
    (∀ (st : Option (List (String × String))) (rel : Option V1.IpuRelation)
        (lt : V1.IngressPerUnitRequirer.ListenTo) (tu : String),
        V1.IngressPerUnitRequirer.urls rel = .ok [] →
        V1.IngressPerUnitRequirer.handleRelation st rel lt tu =
          .ok (some [],
            (if V1.IngressPerUnitRequirer.scopeThis lt then
              (if (keysOf (st.getD [])).contains tu then
                [V1.IngressPerUnitRequirer.Event.revokedForUnit]
              else [])
            else []) ++
            (if V1.IngressPerUnitRequirer.scopeAll lt then
              (keysOf (st.getD [])).map
                (fun _ => V1.IngressPerUnitRequirer.Event.revoked)
            else []))) ∧
    (∀ (rel : Option V1.IpuRelation)
        (lt : V1.IngressPerUnitRequirer.ListenTo) (tu : String),
        V1.IngressPerUnitRequirer.urls rel = .ok [] →
        V1.IngressPerUnitRequirer.handleRelation none rel lt tu =
          .ok (some [], [])) := by
  refine ⟨fun st => rfl, ?_, ?_⟩
  · intro st rel lt tu h
    have hrem : V1.IngressPerUnitRequirer.diffRemoved (st.getD []) [] =
        List.map Prod.fst (st.getD []) := by
      simp [V1.IngressPerUnitRequirer.diffRemoved, keysOf]
    simp only [V1.IngressPerUnitRequirer.handleRelation, h]
    cases lt <;>
      simp [hrem, V1.IngressPerUnitRequirer.diffChanged,
        V1.IngressPerUnitRequirer.scopeThis,
        V1.IngressPerUnitRequirer.scopeAll, keysOf] <;>
      rw [hrem]
  · intro rel lt tu h
    simp only [V1.IngressPerUnitRequirer.handleRelation, h]
    cases lt <;>
      simp [V1.IngressPerUnitRequirer.diffRemoved,
        V1.IngressPerUnitRequirer.diffChanged,
        V1.IngressPerUnitRequirer.scopeThis,
        V1.IngressPerUnitRequirer.scopeAll, keysOf]

theorem c2_witness :
    V1.IngressPerUnitRequirer.handleRelation (some [("app/0", "http://u")])
        (some ⟨some ⟨""⟩, []⟩) V1.IngressPerUnitRequirer.ListenTo.both
        "app/0" =
      .ok (some [], [V1.IngressPerUnitRequirer.Event.revokedForUnit,
        V1.IngressPerUnitRequirer.Event.revoked]) ∧
    V1.IngressPerUnitRequirer.handleRelation none none
        V1.IngressPerUnitRequirer.ListenTo.allUnits "worker/3" =
      .ok (some [], []) :=
  ⟨c2_amended.2.1 (some [("app/0", "http://u")]) (some ⟨some ⟨""⟩, []⟩)
     V1.IngressPerUnitRequirer.ListenTo.both "app/0" rfl,
   c2_amended.2.2 none V1.IngressPerUnitRequirer.ListenTo.allUnits
     "worker/3" rfl⟩

/-- C4: reprocessing an unchanged snapshot is idempotent for notifications,
in both variants: after one handler run, running the handler again on the
same snapshot emits no `ready`/`ready_for_unit` (indeed no notification at
all) and leaves the durable last-known-URL state unchanged; and (v0) a new
resolvable URL value distinct from the stored one is announced by exactly
one `ready` — so `ready` is emitted exactly once per distinct URL value. -/
theorem c4_idempotent_notifications :
    (∀ (st : Option String) (related : Bool) (bag : Databag),
        V0.IngressPerAppRequirer.handleRelation
          (V0.IngressPerAppRequirer.handleRelation st related bag).1
          related bag =
        ((V0.IngressPerAppRequirer.handleRelation st related bag).1, [])) ∧
    (∀ (st : Option String) (related : Bool) (bag : Databag) (u : String),
        V0.IngressPerAppRequirer.url related bag = .ok (some u) → u ≠ "" →
        st ≠ some u →
        V0.IngressPerAppRequirer.handleRelation st related bag =
          (some u, [V0.IngressPerAppRequirer.Event.ready])) ∧
    (∀ (st : Option (List (String × String))) (rel : Option V1.IpuRelation)
        (lt : V1.IngressPerUnitRequirer.ListenTo) (tu : String)
        (st1 : Option (List (String × String)))
        (ev1 : List V1.IngressPerUnitRequirer.Event),
        V1.IngressPerUnitRequirer.handleRelation st rel lt tu =
          .ok (st1, ev1) →
        V1.IngressPerUnitRequirer.handleRelation st1 rel lt tu =
          .ok (st1, [])) := by
  refine ⟨?_, ?_, ?_⟩
  · intro st related bag
    cases hr : V0.IngressPerAppRequirer.is_ready related bag with
    | false => simp [V0.IngressPerAppRequirer.handleRelation, hr]
    | true =>
        cases hu : V0.IngressPerAppRequirer.url related bag with
        | error e => simp [V0.IngressPerAppRequirer.is_ready, hu] at hr
        | ok o =>
            simp only [V0.IngressPerAppRequirer.handleRelation, hr, if_true,
              hu]
            by_cases hst : st = o
            · subst hst
              simp
            · simp [hst]
  · intro st related bag u hu hne hst
    have hr : V0.IngressPerAppRequirer.is_ready related bag = true := by
      simp [V0.IngressPerAppRequirer.is_ready, hu, hne]
    simp [V0.IngressPerAppRequirer.handleRelation, hr, hu, hst]
  · intro st rel lt tu st1 ev1 h
    cases hu : V1.IngressPerUnitRequirer.urls rel with
    | error e => simp [V1.IngressPerUnitRequirer.handleRelation, hu] at h
    | ok current =>
        simp only [V1.IngressPerUnitRequirer.handleRelation, hu] at h
        cases h
        have hrem : V1.IngressPerUnitRequirer.diffRemoved current current
            = [] := by
          simp only [V1.IngressPerUnitRequirer.diffRemoved,
            List.filter_eq_nil_iff]
          intro a ha
          cases hl : aLookup current a with
          | none => exact absurd ha ((aLookup_eq_none_iff current a).mp hl)
          | some v => simp [hl]
        have hch : V1.IngressPerUnitRequirer.diffChanged current current
            = [] := by
          simp [V1.IngressPerUnitRequirer.diffChanged,
            List.filter_eq_nil_iff]
        simp only [V1.IngressPerUnitRequirer.handleRelation, hu,
          Option.getD_some, hrem, hch]
        cases lt <;>
          simp [V1.IngressPerUnitRequirer.scopeThis,
            V1.IngressPerUnitRequirer.scopeAll]

theorem c4_witness :
    V1.IngressPerUnitRequirer.handleRelation none none
        V1.IngressPerUnitRequirer.ListenTo.both "app/0" =
      .ok (some [], []) ∧
    V1.IngressPerUnitRequirer.handleRelation (some []) none
        V1.IngressPerUnitRequirer.ListenTo.both "app/0" =
      .ok (some [], []) ∧
    V0.IngressPerAppRequirer.handleRelation none true
        [("data", V0.providerIngressJson "http://u")] =
      (some "http://u", [V0.IngressPerAppRequirer.Event.ready]) :=
  ⟨by rfl,
   c4_idempotent_notifications.2.2 none none
     V1.IngressPerUnitRequirer.ListenTo.both "app/0" (some []) [] (by rfl),
   c4_idempotent_notifications.2.1 none true
     [("data", V0.providerIngressJson "http://u")] "http://u" (by rfl)
     (by decide) (by decide)⟩

/-- C5: the per-unit requirer's diff is set-based: `removed` holds exactly
the keys present in the previous mapping and absent from the current one;
`changed` holds exactly the keys present in the current mapping whose value
differs from the previous one, which includes all newly present keys; and
membership in both is independent of the ordering of the two mappings. -/
theorem c5_diff_set_semantics :
    ∀ (P C : List (String × String)) (a : String),
      (a ∈ V1.IngressPerUnitRequirer.diffRemoved P C ↔
        a ∈ keysOf P ∧ a ∉ keysOf C) ∧
      (a ∈ V1.IngressPerUnitRequirer.diffChanged P C ↔
        a ∈ keysOf C ∧ aLookup C a ≠ aLookup P a) ∧
      (a ∈ keysOf C → a ∉ keysOf P →
        a ∈ V1.IngressPerUnitRequirer.diffChanged P C) ∧
      (∀ P2 C2 : List (String × String), P.Perm P2 → C.Perm C2 →
        (keysOf P).Nodup → (keysOf C).Nodup →
        ((a ∈ V1.IngressPerUnitRequirer.diffRemoved P C ↔
            a ∈ V1.IngressPerUnitRequirer.diffRemoved P2 C2) ∧
         (a ∈ V1.IngressPerUnitRequirer.diffChanged P C ↔
            a ∈ V1.IngressPerUnitRequirer.diffChanged P2 C2))) := by
  have hrem : ∀ (P C : List (String × String)) (a : String),
      a ∈ V1.IngressPerUnitRequirer.diffRemoved P C ↔
        a ∈ keysOf P ∧ a ∉ keysOf C := by
    intro P C a
    simp only [V1.IngressPerUnitRequirer.diffRemoved, List.mem_filter,
      Option.isNone_iff_eq_none, aLookup_eq_none_iff]
  have hchg : ∀ (P C : List (String × String)) (a : String),
      a ∈ V1.IngressPerUnitRequirer.diffChanged P C ↔
        a ∈ keysOf C ∧ aLookup C a ≠ aLookup P a := by
    intro P C a
    simp only [V1.IngressPerUnitRequirer.diffChanged, List.mem_filter,
      decide_eq_true_eq]
  intro P C a
  refine ⟨hrem P C a, hchg P C a, ?_, ?_⟩
  · intro hC hP
    refine (hchg P C a).mpr ⟨hC, ?_⟩
    have h1 : aLookup P a = none := (aLookup_eq_none_iff P a).mpr hP
    have h2 : (aLookup C a).isSome := aLookup_isSome_of_mem_keys hC
    intro heq
    rw [heq, h1] at h2
    simp at h2
  · intro P2 C2 hpP hpC hndP hndC
    constructor
    · rw [hrem P C a, hrem P2 C2 a, (keysOf_perm hpP).mem_iff,
        (keysOf_perm hpC).mem_iff]
    · rw [hchg P C a, hchg P2 C2 a, (keysOf_perm hpC).mem_iff,
        aLookup_perm hpP hndP a, aLookup_perm hpC hndC a]

theorem c5_witness :
    (("a" ∈ V1.IngressPerUnitRequirer.diffRemoved
        [("a", "1"), ("b", "2")] [("b", "3")] ↔
      "a" ∈ V1.IngressPerUnitRequirer.diffRemoved
        [("b", "2"), ("a", "1")] [("b", "3")]) ∧
     ("a" ∈ V1.IngressPerUnitRequirer.diffChanged
        [("a", "1"), ("b", "2")] [("b", "3")] ↔
      "a" ∈ V1.IngressPerUnitRequirer.diffChanged
        [("b", "2"), ("a", "1")] [("b", "3")])) :=
  (c5_diff_set_semantics [("a", "1"), ("b", "2")] [("b", "3")] "a").2.2.2
    [("b", "2"), ("a", "1")] [("b", "3")]
    (List.Perm.swap ("b", "2") ("a", "1") []) (List.Perm.refl _)
    (by decide) (by decide)

/-- C7: when the pre-existing published mapping in the per-unit provider's
app databag fails validation against the provider app schema, `publish_url`
logs the failure (`loggedCorruption = true`) and returns without performing
any write: the databag in the result is exactly the databag the call started
from. -/
theorem c7_corrupted_mapping_blocks_write :
    ∀ (bag : Databag) (unitName urlv raw : String) (data : Yaml),
      aLookup bag "ingress" = some raw → raw ≠ "" →
      safeLoad raw = some data → validateProvidesApp data = false →
      V1.IngressPerUnitProvider.publish_url true bag unitName urlv =
        .ok ⟨bag, true⟩ := by
  intro bag unitName urlv raw data h1 h2 h3 h4
  simp [V1.IngressPerUnitProvider.publish_url, h1, h2, h3, h4]

theorem c7_witness :
    V1.IngressPerUnitProvider.publish_url true [("ingress", "a: oops\n")]
        "app/0" "http://u" = .ok ⟨[("ingress", "a: oops\n")], true⟩ :=
  c7_corrupted_mapping_blocks_write [("ingress", "a: oops\n")] "app/0"
    "http://u" "a: oops\n" (Yaml.map [("a", Yaml.str "oops")])
    rfl (by decide) rfl rfl

theorem validateGo_all_eq (m : String) :
    ∀ l : List (String × V1.RequirerData),
      (∀ e ∈ l, e.2.model = m) →
      V1.IngressPerUnitProvider.validateGo (some m) l = .ok false := by
  intro l
  induction l with
  | nil => intro _; rfl
  | cons p rest ih =>
      intro h
      obtain ⟨u, r⟩ := p
      have hm : r.model = m := h (u, r) (List.mem_cons_self _ _)
      have ht : ∀ e ∈ rest, e.2.model = m := fun e he =>
        h e (List.mem_cons_of_mem _ he)
      simp only [V1.IngressPerUnitProvider.validateGo, hm]
      by_cases hf : V1.IngressPerUnitProvider.pyFalsy (some m) = true
      · simp only [hf, if_true]
        exact ih ht
      · simp only [hf, Bool.false_eq_true, if_false, if_pos rfl]
        exact ih ht

theorem validateGo_mismatch (m : String) (hm : m ≠ "") :
    ∀ l : List (String × V1.RequirerData),
      (∃ e ∈ l, e.2.model ≠ m) →
      ∃ u, V1.IngressPerUnitProvider.validateGo (some m) l =
        .error (V1.IpuError.dataMismatch u) := by
  intro l
  induction l with
  | nil =>
      rintro ⟨e, he, _⟩
      simp at he
  | cons p rest ih =>
      rintro ⟨e, he, hne⟩
      obtain ⟨u, r⟩ := p
      have hf : V1.IngressPerUnitProvider.pyFalsy (some m) = false := by
        simp [V1.IngressPerUnitProvider.pyFalsy, hm]
      by_cases hr : some m = some r.model
      · rcases List.mem_cons.mp he with rfl | hein
        · exact absurd (Option.some.inj hr).symm hne
        · have hrec := ih ⟨e, hein, hne⟩
          obtain ⟨w, hw⟩ := hrec
          refine ⟨w, ?_⟩
          simpa [V1.IngressPerUnitProvider.validateGo, hf, hr] using hw
      · refine ⟨u, ?_⟩
        simp [V1.IngressPerUnitProvider.validateGo, hf, hr]

/-- C8 (counterexample): `validate` does not raise for every pair of remote
units with differing `"model"` values.  Here the two remote units publish
the models `""` and `"m1"` — different values — yet `validate` returns
normally, because a falsy (empty) model is treated like an absent one. -/
theorem c8_counterexample :
    V1.IngressPerUnitProvider.requirer_units_data
        ⟨some ⟨"remote"⟩,
         [("app/0",
           [("port", "80"), ("host", "h1"), ("model", ""), ("name", "app/0")]),
          ("app/1",
           [("port", "81"), ("host", "h2"), ("model", "m1"),
            ("name", "app/1")])]⟩ =
      .ok [("app/0", ⟨"", "app/0", "h1", 80⟩),
           ("app/1", ⟨"m1", "app/1", "h2", 81⟩)] ∧
    ("" : String) ≠ "m1" ∧
    V1.IngressPerUnitProvider.validate
        ⟨some ⟨"remote"⟩,
         [("app/0",
           [("port", "80"), ("host", "h1"), ("model", ""), ("name", "app/0")]),
          ("app/1",
           [("port", "81"), ("host", "h2"), ("model", "m1"),
            ("name", "app/1")])]⟩ = .ok false :=
  ⟨rfl, by decide, rfl⟩

theorem dropWhile_head_false {α : Type} (p : α → Bool) :
    ∀ (l : List α) (x : α) (xs : List α),
      l.dropWhile p = x :: xs → p x = false := by
  intro l
  induction l with
  | nil =>
      intro x xs h
      simp at h
  | cons y ys ih =>
      intro x xs h
      rw [List.dropWhile_cons] at h
      split at h
      · exact ih x xs h
      · next hpy =>
          injection h with h1 h2
          subst h1
          cases hb : p y with
          | true => exact absurd hb hpy
          | false => exact rfl

theorem validateGo_falsy_skip (l : List (String × V1.RequirerData)) :
    V1.IngressPerUnitProvider.validateGo (some "") l =
      V1.IngressPerUnitProvider.validateGo none l := by
  cases l with
  | nil => rfl
  | cons p rest =>
      obtain ⟨u, r⟩ := p
      rfl

theorem validateGo_none_dropWhile :
    ∀ l : List (String × V1.RequirerData),
      V1.IngressPerUnitProvider.validateGo none l =
        match l.dropWhile (fun e => e.2.model = "") with
        | [] => Except.ok false
        | e0 :: rest =>
            V1.IngressPerUnitProvider.validateGo (some e0.2.model) rest := by
  intro l
  induction l with
  | nil => rfl
  | cons p rest ih =>
      obtain ⟨u, r⟩ := p
      have hstep : V1.IngressPerUnitProvider.validateGo none ((u, r) :: rest) =
          V1.IngressPerUnitProvider.validateGo (some r.model) rest := rfl
      by_cases hr : r.model = ""
      · rw [hstep, hr, validateGo_falsy_skip, ih, List.dropWhile_cons]
        simp [hr]
      · rw [hstep, List.dropWhile_cons]
        simp [hr]

/-- C8 (amended): `validate`'s mismatch check skips records up to the first
one with a non-empty (truthy) `model` value and raises
`RelationDataMismatchError` exactly when some later record's `model` differs
from that first value — so empty-string models before the first non-empty
one are tolerated (models scanned as `""`, `"m1"` do not raise) while any
later differing value, empty included, raises (models scanned as `"m1"`,
`""` do).  Records differing only in `port` never raise; and a mismatch does
not affect `is_ready`, which (when the base readiness check passes) is true
iff at least one remote record is complete and valid. -/
theorem c8_amended :
    ∀ (rel : V1.IpuProviderRelation)
      (l : List (String × V1.RequirerData)),
      V1.IngressPerUnitProvider.requirer_units_data rel = .ok l →
      ((l.dropWhile (fun e => e.2.model = "") = [] →
          V1.IngressPerUnitProvider.validate rel = .ok false) ∧
       (∀ (e0 : String × V1.RequirerData)
          (rest : List (String × V1.RequirerData)),
          l.dropWhile (fun e => e.2.model = "") = e0 :: rest →
          ((∀ e ∈ rest, e.2.model = e0.2.model) →
            V1.IngressPerUnitProvider.validate rel = .ok false) ∧
          ((∃ e ∈ rest, e.2.model ≠ e0.2.model) →
            ∃ u, V1.IngressPerUnitProvider.validate rel =
              .error (V1.IpuError.dataMismatch u))) ∧
       (V1.baseIsReady rel.app = true →
          V1.IngressPerUnitProvider.is_ready rel = !l.isEmpty)) := by
  intro rel l hl
  have hval : V1.IngressPerUnitProvider.validate rel =
      V1.IngressPerUnitProvider.validateGo none l := by
    simp [V1.IngressPerUnitProvider.validate, hl]
  refine ⟨?_, ?_, ?_⟩
  · intro hdrop
    rw [hval, validateGo_none_dropWhile, hdrop]
  · intro e0 rest hdrop
    have hkey : V1.IngressPerUnitProvider.validate rel =
        V1.IngressPerUnitProvider.validateGo (some e0.2.model) rest := by
      rw [hval, validateGo_none_dropWhile, hdrop]
    have hne : e0.2.model ≠ "" := by
      have hfalse := dropWhile_head_false _ l e0 rest hdrop
      simpa using hfalse
    constructor
    · intro hall
      rw [hkey]
      exact validateGo_all_eq e0.2.model rest hall
    · intro hex
      obtain ⟨w, hw⟩ := validateGo_mismatch e0.2.model hne rest hex
      refine ⟨w, ?_⟩
      rw [hkey]
      exact hw
  · intro hb
    simp [V1.IngressPerUnitProvider.is_ready, hb, hl]

theorem c8_witness :
    (∃ u, V1.IngressPerUnitProvider.validate
        ⟨some ⟨"remote"⟩,
         [("app/0",
           [("port", "80"), ("host", "h1"), ("model", "m1"),
            ("name", "app/0")]),
          ("app/1",
           [("port", "81"), ("host", "h2"), ("model", ""),
            ("name", "app/1")])]⟩ =
        .error (V1.IpuError.dataMismatch u)) ∧
    V1.IngressPerUnitProvider.validate
        ⟨some ⟨"remote"⟩,
         [("port0",
           [("port", "80"), ("host", "h1"), ("model", "m1"),
            ("name", "port0")]),
          ("port1",
           [("port", "9999"), ("host", "h1"), ("model", "m1"),
            ("name", "port1")])]⟩ = .ok false ∧
    V1.IngressPerUnitProvider.is_ready
        ⟨some ⟨"remote"⟩,
         [("app/0",
           [("port", "80"), ("host", "h1"), ("model", "m1"),
            ("name", "app/0")]),
          ("app/1",
           [("port", "81"), ("host", "h2"), ("model", ""),
            ("name", "app/1")])]⟩ = true :=
  ⟨((c8_amended
      ⟨some ⟨"remote"⟩,
         [("app/0",
           [("port", "80"), ("host", "h1"), ("model", "m1"),
            ("name", "app/0")]),
          ("app/1",
           [("port", "81"), ("host", "h2"), ("model", ""),
            ("name", "app/1")])]⟩
      [("app/0", ⟨"m1", "app/0", "h1", 80⟩),
       ("app/1", ⟨"", "app/1", "h2", 81⟩)] rfl).2.1
      ("app/0", ⟨"m1", "app/0", "h1", 80⟩)
      [("app/1", ⟨"", "app/1", "h2", 81⟩)] (by rfl)).2 (by decide),
   ((c8_amended
      ⟨some ⟨"remote"⟩,
         [("port0",
           [("port", "80"), ("host", "h1"), ("model", "m1"),
            ("name", "port0")]),
          ("port1",
           [("port", "9999"), ("host", "h1"), ("model", "m1"),
            ("name", "port1")])]⟩
      [("port0", ⟨"m1", "port0", "h1", 80⟩),
       ("port1", ⟨"m1", "port1", "h1", 9999⟩)] rfl).2.1
      ("port0", ⟨"m1", "port0", "h1", 80⟩)
      [("port1", ⟨"m1", "port1", "h1", 9999⟩)] (by rfl)).1 (by decide),
   (c8_amended
      ⟨some ⟨"remote"⟩,
         [("app/0",
           [("port", "80"), ("host", "h1"), ("model", "m1"),
            ("name", "app/0")]),
          ("app/1",
           [("port", "81"), ("host", "h2"), ("model", ""),
            ("name", "app/1")])]⟩
      [("app/0", ⟨"m1", "app/0", "h1", 80⟩),
       ("app/1", ⟨"", "app/1", "h2", 81⟩)] rfl).2.2 rfl⟩

/-- C9 (counterexample): `urls` is not exception-free on an unknown remote
application identity: with the relation present but `relation.app` absent
(as can happen during relation teardown), `urls` raises `AttributeError`
(`relation.app.name` on `None`) instead of resolving to empty — even though
perfectly well-formed provider data is in the databag. -/
theorem c9_counterexample :
    V1.IngressPerUnitRequirer.urls
        (some ⟨none, [("ingress", "a:\n  url: u\n")]⟩) =
      .error V1.IpuError.attributeError := rfl

/-- C9 (amended): missing data resolves to empty/`None`/not-ready without
exceptions — no relation, an empty remote app name, or an absent `"ingress"`
value all yield `{}`/`None` from `urls`/`url` and `False` from `is_ready` —
and `is_ready` also treats an absent remote app object as not-ready; but
`urls`/`url` themselves raise `AttributeError` when the remote app object is
absent; and malformed remote data surfaces as a `DataValidationError`
propagating out of `is_ready` to its caller. -/
theorem c9_amended :
    (V1.IngressPerUnitRequirer.urls none = .ok []) ∧
    (∀ bag : Databag,
        V1.IngressPerUnitRequirer.urls (some ⟨some ⟨""⟩, bag⟩) = .ok []) ∧
    (∀ (a : V1.RemoteApp) (bag : Databag) (tu : String), a.name ≠ "" →
        aLookup bag "ingress" = none →
        V1.IngressPerUnitRequirer.urls (some ⟨some a, bag⟩) = .ok [] ∧
        V1.IngressPerUnitRequirer.url (some ⟨some a, bag⟩) tu = .ok none) ∧
    (∀ bag : Databag,
        V1.IngressPerUnitRequirer.urls (some ⟨none, bag⟩) =
          .error V1.IpuError.attributeError) ∧
    (∀ tu : String,
        V1.IngressPerUnitRequirer.is_ready none tu = .ok false) ∧
    (∀ (bag : Databag) (tu : String),
        V1.IngressPerUnitRequirer.is_ready (some ⟨none, bag⟩) tu =
          .ok false) ∧
    (∀ (bag : Databag) (tu : String),
        V1.IngressPerUnitRequirer.is_ready (some ⟨some ⟨""⟩, bag⟩) tu =
          .ok false) ∧
    (∀ (a : V1.RemoteApp) (bag : Databag) (raw : String) (d : Yaml)
        (tu : String),
        a.name ≠ "" → aLookup bag "ingress" = some raw → raw ≠ "" →
        safeLoad raw = some d → validateProvidesApp d = false →
        V1.IngressPerUnitRequirer.is_ready (some ⟨some a, bag⟩) tu =
          .error V1.IpuError.dataValidationError) := by
  refine ⟨rfl, ?_, ?_, ?_, fun _ => rfl, ?_, ?_, ?_⟩
  · intro bag
    rfl
  · intro a bag tu ha hbag
    have hurls : V1.IngressPerUnitRequirer.urls (some ⟨some a, bag⟩) =
        .ok [] := by
      simp [V1.IngressPerUnitRequirer.urls, ha, hbag]
    exact ⟨hurls, by simp [V1.IngressPerUnitRequirer.url, hurls]⟩
  · intro bag
    rfl
  · intro bag tu
    rfl
  · intro bag tu
    simp [V1.IngressPerUnitRequirer.is_ready, V1.baseIsReady]
  · intro a bag raw d tu ha hbag hraw hload hval
    have hurls : V1.IngressPerUnitRequirer.urls (some ⟨some a, bag⟩) =
        .error V1.IpuError.dataValidationError := by
      simp [V1.IngressPerUnitRequirer.urls, ha, hbag, hraw,
        V1.IngressPerUnitRequirer.decodeUrlString, hload, hval]
    simp [V1.IngressPerUnitRequirer.is_ready, V1.baseIsReady, ha,
      V1.IngressPerUnitRequirer.url, hurls]

theorem c9_witness :
    (V1.IngressPerUnitRequirer.urls (some ⟨some ⟨"remote"⟩, []⟩) = .ok [] ∧
     V1.IngressPerUnitRequirer.url (some ⟨some ⟨"remote"⟩, []⟩) "app/0" =
       .ok none) ∧
    V1.IngressPerUnitRequirer.is_ready
        (some ⟨some ⟨"remote"⟩, [("ingress", "a: b\n")]⟩) "app/0" =
      .error V1.IpuError.dataValidationError :=
  ⟨c9_amended.2.2.1 ⟨"remote"⟩ [] "app/0" (by decide) rfl,
   c9_amended.2.2.2.2.2.2.2 ⟨"remote"⟩ [("ingress", "a: b\n")] "a: b\n"
     (Yaml.map [("a", Yaml.str "b")]) "app/0" (by decide) rfl (by decide)
     rfl rfl⟩

theorem takeWhile_append_all {α : Type} (p : α → Bool) (xs ys : List α)
    (h : ∀ x ∈ xs, p x = true) :
    (xs ++ ys).takeWhile p = xs ++ ys.takeWhile p := by
  induction xs with
  | nil => simp
  | cons x rest ih =>
      have hx : p x = true := h x (List.mem_cons_self _ _)
      simp only [List.cons_append, List.takeWhile_cons, hx, if_true]
      rw [ih (fun y hy => h y (List.mem_cons_of_mem _ hy))]

theorem dropWhile_append_all {α : Type} (p : α → Bool) (xs ys : List α)
    (h : ∀ x ∈ xs, p x = true) :
    (xs ++ ys).dropWhile p = ys.dropWhile p := by
  induction xs with
  | nil => simp
  | cons x rest ih =>
      have hx : p x = true := h x (List.mem_cons_self _ _)
      simp only [List.cons_append, List.dropWhile_cons, hx, if_true]
      exact ih (fun y hy => h y (List.mem_cons_of_mem _ hy))

theorem splitNl_append (line rest : List Char) (h : '\n' ∉ line) :
    splitNl (line ++ '\n' :: rest) = line :: splitNl rest := by
  induction line with
  | nil => simp [splitNl]
  | cons c cs ih =>
      have hc : c ≠ '\n' := fun he => h (List.mem_cons.mpr (Or.inl he.symm))
      have hcs : '\n' ∉ cs := fun hm => h (List.mem_cons_of_mem _ hm)
      simp [splitNl, hc, ih hcs]

theorem splitNl_joinNl (lines : List (List Char))
    (h : ∀ l ∈ lines, '\n' ∉ l) :
    splitNl (joinNlChars lines) = lines ++ [[]] := by
  induction lines with
  | nil => rfl
  | cons l ls ih =>
      have hl : '\n' ∉ l := h l (List.mem_cons_self _ _)
      have hls : ∀ x ∈ ls, '\n' ∉ x := fun x hx =>
        h x (List.mem_cons_of_mem _ hx)
      show splitNl (l ++ '\n' :: joinNlChars ls) = (l :: ls) ++ [[]]
      rw [splitNl_append l (joinNlChars ls) hl, ih hls]
      rfl

theorem trimTrailingBlank_append (lines : List (List Char))
    (h : ∀ l ∈ lines, l ≠ []) :
    trimTrailingBlank (lines ++ [[]]) = lines := by
  unfold trimTrailingBlank
  rw [List.reverse_append]
  show (List.dropWhile _ ([] :: lines.reverse)).reverse = lines
  rw [List.dropWhile_cons]
  simp only [List.isEmpty_nil, if_true]
  cases hrev : lines.reverse with
  | nil =>
      have hl : lines = [] := by
        rw [← List.reverse_reverse lines, hrev]
        rfl
      subst hl
      rfl
  | cons a as =>
      have ha : a ≠ [] :=
        h a (List.mem_reverse.mp (hrev ▸ List.mem_cons_self a as))
      have hae : a.isEmpty = false := by
        cases a with
        | nil => exact absurd rfl ha
        | cons y ys => rfl
      rw [List.dropWhile_cons, hae]
      simp only [Bool.false_eq_true, if_false]
      rw [← hrev, List.reverse_reverse]

theorem splitEntryLine_block (k : String) (hk : ':' ∉ k.data) :
    splitEntryLine (k.data ++ [':']) = some (k, none) := by
  have hall : ∀ c ∈ k.data, (c != ':') = true := by
    intro c hc
    have hne : c ≠ ':' := fun he => hk (he ▸ hc)
    simpa using hne
  unfold splitEntryLine
  rw [dropWhile_append_all _ _ _ hall, takeWhile_append_all _ _ _ hall]
  simp [List.dropWhile, List.takeWhile]

theorem indentp_block (k : String) (hh : k.data.head? ≠ some ' ') :
    indentp (k.data ++ [':']) = false := by
  cases hd : k.data with
  | nil => rfl
  | cons c cs =>
      have hc : c ≠ ' ' := by
        rw [hd] at hh
        simpa using hh
      cases cs with
      | nil => simp [indentp, hc]
      | cons c2 cs2 => simp [indentp, hc]

theorem string_data_mk (cs : List Char) : (⟨cs⟩ : String).data = cs := rfl

theorem parseTopR_fragment :
    ∀ es : List (String × Yaml), (∀ e ∈ es, FragEntry e) →
      parseTopR ((es.map yamlEntryLines).flatten) = some (es, []) := by
  intro es
  induction es with
  | nil => intro _; rfl
  | cons e rest ih =>
      intro h
      obtain ⟨k, v⟩ := e
      obtain ⟨⟨hk1, hk2, hk3⟩, u, hshape, hu⟩ := h (k, v) (List.mem_cons_self _ _)
      subst hshape
      have hrest := ih (fun x hx => h x (List.mem_cons_of_mem _ hx))
      have hinner : parseTopR
          ((' ' :: ' ' :: "url".data ++ ':' :: ' ' :: u.data) ::
            (rest.map yamlEntryLines).flatten) =
          some (rest, [("url", Yaml.str u)]) := by
        rw [parseTopR, hrest]
        rfl
      have hmain : parseTopR
          ((k.data ++ [':']) ::
            (' ' :: ' ' :: "url".data ++ ':' :: ' ' :: u.data) ::
            (rest.map yamlEntryLines).flatten) =
          some ((k, Yaml.map [("url", Yaml.str u)]) :: rest, []) := by
        rw [parseTopR, hinner]
        simp only [indentp_block k hk3, Bool.false_eq_true, if_false,
          splitEntryLine_block k hk1]
        rfl
      exact hmain

theorem parseTop_fragment (es : List (String × Yaml))
    (h : ∀ e ∈ es, FragEntry e) :
    parseTop ((es.map yamlEntryLines).flatten) = some es := by
  unfold parseTop
  rw [parseTopR_fragment es h]

theorem frag_lines_ok :
    ∀ es : List (String × Yaml), (∀ e ∈ es, FragEntry e) →
      ∀ l ∈ (es.map yamlEntryLines).flatten, '\n' ∉ l ∧ l ≠ [] := by
  intro es
  induction es with
  | nil =>
      intro _ l hl
      simp at hl
  | cons e rest ih =>
      intro h l hl
      obtain ⟨k, v⟩ := e
      obtain ⟨⟨hk1, hk2, hk3⟩, u, hshape, hu⟩ := h (k, v) (List.mem_cons_self _ _)
      subst hshape
      have hl2 : l ∈ (k.data ++ [':']) ::
          (' ' :: ' ' :: "url".data ++ ':' :: ' ' :: u.data) ::
          (rest.map yamlEntryLines).flatten := hl
      rcases List.mem_cons.mp hl2 with rfl | hl3
      · constructor
        · intro hmem
          rcases List.mem_append.mp hmem with hm | hm
          · exact hk2 hm
          · simp at hm
        · intro heq
          simpa using congrArg List.length heq
      · rcases List.mem_cons.mp hl3 with rfl | hl4
        · constructor
          · intro hmem
            rcases List.mem_cons.mp hmem with h1 | hmem2
            · exact absurd h1 (by decide)
            rcases List.mem_cons.mp hmem2 with h1 | hmem3
            · exact absurd h1 (by decide)
            rcases List.mem_append.mp hmem3 with hm | hm
            · exact absurd hm (by decide)
            rcases List.mem_cons.mp hm with h1 | hm2
            · exact absurd h1 (by decide)
            rcases List.mem_cons.mp hm2 with h1 | hm3
            · exact absurd h1 (by decide)
            · exact hu hm3
          · intro heq
            simp at heq
        · exact ih (fun x hx => h x (List.mem_cons_of_mem _ hx)) l hl4

theorem validate_fragment (es : List (String × Yaml))
    (h : ∀ e ∈ es, FragEntry e) :
    validateProvidesApp (Yaml.map es) = true := by
  simp only [validateProvidesApp, List.all_eq_true]
  intro q hq
  obtain ⟨_, u, hshape, _⟩ := h q hq
  rw [hshape]
  rfl

theorem safeLoad_of_lines (l1 l2 : List Char) (ltail : List (List Char))
    (es : List (String × Yaml))
    (hnl : ∀ l ∈ l1 :: l2 :: ltail, '\n' ∉ l)
    (hnn : ∀ l ∈ l1 :: l2 :: ltail, l ≠ [])
    (hp : parseTop (l1 :: l2 :: ltail) = some es) :
    safeLoad ⟨joinNlChars (l1 :: l2 :: ltail)⟩ = some (Yaml.map es) := by
  have key : trimTrailingBlank (splitNl (joinNlChars (l1 :: l2 :: ltail))) =
      l1 :: l2 :: ltail := by
    rw [splitNl_joinNl _ hnl, trimTrailingBlank_append _ hnn]
  have hne : (l1 :: l2 :: ltail) ≠ [['\x7b', '\x7d']] := by simp
  unfold safeLoad
  simp only [string_data_mk, key]
  rw [if_neg hne, hp]

theorem safeLoad_dump_fragment (es : List (String × Yaml)) (hne : es ≠ [])
    (h : ∀ e ∈ es, FragEntry e) :
    safeLoad (yamlDump (Yaml.map es)) = some (Yaml.map (sortPairs es)) := by
  have hS : ∀ e ∈ sortPairs es, FragEntry e := fun e he =>
    h e ((sortPairs_perm es).mem_iff.mp he)
  have hSne : sortPairs es ≠ [] := by
    intro hnil
    have hlen := (sortPairs_perm es).length_eq
    rw [hnil] at hlen
    exact hne (List.length_eq_zero.mp hlen.symm)
  have hlf := frag_lines_ok (sortPairs es) hS
  have hp := parseTop_fragment (sortPairs es) hS
  obtain ⟨e0, es0, rfl⟩ : ∃ e0 es0, es = e0 :: es0 := by
    cases es with
    | nil => exact absurd rfl hne
    | cons a l => exact ⟨a, l, rfl⟩
  obtain ⟨s0, S0, hS0⟩ : ∃ s0 S0, sortPairs (e0 :: es0) = s0 :: S0 := by
    cases hval : sortPairs (e0 :: es0) with
    | nil => exact absurd hval hSne
    | cons a l => exact ⟨a, l, rfl⟩
  obtain ⟨k0, v0⟩ := s0
  obtain ⟨⟨hk01, hk02, hk03⟩, u0, hsh0, hu0⟩ := hS (k0, v0)
    (by rw [hS0]; exact List.mem_cons_self _ _)
  rw [hS0] at hlf hp
  subst hsh0
  have hdump : yamlDump (Yaml.map (e0 :: es0)) =
      ⟨joinNlChars
        (((sortPairs (e0 :: es0)).map yamlEntryLines).flatten)⟩ := rfl
  rw [hdump, hS0]
  exact safeLoad_of_lines _ _ _ _
    (fun l hl => (hlf l hl).1) (fun l hl => (hlf l hl).2) hp

theorem image_extract (M : List (String × String)) :
    ((M.map (fun kv => (kv.1, Yaml.map [("url", Yaml.str kv.2)]))).map
      (fun q => (q.1, urlOf q.2))) = M := by
  induction M with
  | nil => rfl
  | cons kv rest ih =>
      simp only [List.map_cons, ih]
      rfl

/-- C6: the per-unit wire codec is lossless.  Decoding what `publish_url`
writes for a mapping `M` (keys that are plain scalars, one-line urls, no
duplicate keys) recovers exactly `M` as a mapping: looking any key up in the
decoded mapping agrees with looking it up in `M`; and `publish_url` on a
databag with no previous mapping writes precisely `encodeIngress` of the
published singleton mapping. -/
theorem c6_roundtrip_codec :
    (∀ M : List (String × String),
      (∀ kv ∈ M, PlainKey kv.1 ∧ '\n' ∉ kv.2.data) →
      (keysOf M).Nodup →
      ∀ k, decodedLookup (V1.encodeIngress M) k = some (aLookup M k)) ∧
    (∀ (bag : Databag) (unitName urlv : String),
      aLookup bag "ingress" = none →
      V1.IngressPerUnitProvider.publish_url true bag unitName urlv =
        .ok ⟨aSet bag "ingress" (V1.encodeIngress [(unitName, urlv)]),
          false⟩) := by
  constructor
  · intro M hM hnd k
    cases M with
    | nil => rfl
    | cons kv0 M0 =>
        have hfrag : ∀ e ∈ (kv0 :: M0).map
            (fun kv => (kv.1, Yaml.map [("url", Yaml.str kv.2)])),
            FragEntry e := by
          intro e he
          rcases List.mem_map.mp he with ⟨kv, hkv, rfl⟩
          exact ⟨(hM kv hkv).1, kv.2, rfl, (hM kv hkv).2⟩
        have hload := safeLoad_dump_fragment
          ((kv0 :: M0).map (fun kv => (kv.1, Yaml.map [("url", Yaml.str kv.2)])))
          (by simp) hfrag
        have hfragS : ∀ e ∈ sortPairs ((kv0 :: M0).map
            (fun kv => (kv.1, Yaml.map [("url", Yaml.str kv.2)]))),
            FragEntry e :=
          fun e he => hfrag e ((sortPairs_perm _).mem_iff.mp he)
        have hvalid := validate_fragment _ hfragS
        have henc : V1.encodeIngress (kv0 :: M0) =
            yamlDump (Yaml.map ((kv0 :: M0).map
              (fun kv => (kv.1, Yaml.map [("url", Yaml.str kv.2)])))) := rfl
        unfold decodedLookup V1.IngressPerUnitRequirer.decodeUrlString
        rw [henc]
        simp only [hload, hvalid, if_true]
        have hperm : (extractUrls (Yaml.map (sortPairs ((kv0 :: M0).map
            (fun kv => (kv.1, Yaml.map [("url", Yaml.str kv.2)])))))).Perm
            (kv0 :: M0) := by
          have h2 := (sortPairs_perm ((kv0 :: M0).map
            (fun kv => (kv.1, Yaml.map [("url", Yaml.str kv.2)])))).map
            (fun q => (q.1, urlOf q.2))
          rw [image_extract] at h2
          exact h2
        have hnodup2 : (keysOf (extractUrls (Yaml.map (sortPairs
            ((kv0 :: M0).map
              (fun kv => (kv.1, Yaml.map [("url", Yaml.str kv.2)]))))))).Nodup :=
          ((keysOf_perm hperm).nodup_iff).mpr hnd
        exact congrArg some (aLookup_perm hperm hnodup2 k)
  · intro bag unitName urlv h
    simp only [V1.IngressPerUnitProvider.publish_url, h]
    rfl

theorem c6_witness :
    decodedLookup (V1.encodeIngress [("app/0", "http://proxy/m-app-0")])
        "app/0" = some (some "http://proxy/m-app-0") ∧
    V1.IngressPerUnitProvider.publish_url true [] "app/0"
        "http://proxy/m-app-0" =
      .ok ⟨aSet [] "ingress"
        (V1.encodeIngress [("app/0", "http://proxy/m-app-0")]), false⟩ :=
  ⟨c6_roundtrip_codec.1 [("app/0", "http://proxy/m-app-0")] (by decide)
    (by decide) "app/0",
   c6_roundtrip_codec.2 [] "app/0" "http://proxy/m-app-0" rfl⟩
